import Mathlib

/-
Verification of the search core of the dragontooth chess engine
(src/search/search.go) against its natural-language specification.

The Go code is shallowly embedded.  External collaborators (the board
representation and legal-move generator `dragontoothmg`, the static
evaluator `eval`, and the transposition table `transtable`) enter the
model through the `Game` structure and through an explicit functional
cache carried in the search state.  Machine int16 scores are modelled as
`Int` with explicit wrapping where the Go code can wrap (negation);
the shared stop flag, the one-shot halt channel and the global node
counter are threaded through an explicit `SState` record.  The halt
channel delivery instant is modelled by a node-count timestamp
(`haltAt`), matching the asynchronous one-shot send of the timer
goroutine: the signal is received by the first node whose visit count
reaches the timestamp.
-/

set_option autoImplicit false

namespace Dragontooth

/-! ### Score bounds (search.go lines 15-19) -/

/-- `math.MinInt16`. -/
def minInt16 : Int := -32768

/-- `math.MaxInt16`. -/
def maxInt16 : Int := 32767

/-- `const negInf = math.MinInt16 + 2` (search.go line 16). -/
def negInf : Int := minInt16 + 2

/-- `const posInf = math.MaxInt16 - 1` (search.go line 17). -/
def posInf : Int := maxInt16 - 1

/-- `const QuiesceCutoffDepth = 5` (search.go line 19). -/
def QuiesceCutoffDepth : Int := 5

/-- Reduce an integer into int16 range with wraparound, the semantics of
Go int16 arithmetic. -/
def wrap16 (n : Int) : Int := (n + 32768) % 65536 - 32768

/-- Go int16 negation (`-x` on an int16 value), which wraps at -32768. -/
def neg16 (n : Int) : Int := wrap16 (-n)

/-! ### External collaborators and the cache entry shape -/

/-- The three bound kinds stored by the transposition table
(`transtable.Exact`, `transtable.LowerBound`, `transtable.UpperBound`). -/
inductive NodeType where
  | Exact
  | LowerBound
  | UpperBound
deriving DecidableEq, Repr

/-- The consumed shape of a transposition-table entry:
`transtable.Get` returns `(found, move, eval, depth, nodeType)`; a hit is
modelled as `some` of this record. -/
structure Entry (M : Type) where
  move : M
  eval : Int
  depth : Int
  ntype : NodeType
deriving Repr

/-- The external collaborators of the search core: the board and move
types of `dragontoothmg` with legal-move generation, move application
(undo is modelled by keeping the pre-move board), the canonical move
notation `Move.String()`, the zero move `Move(0)` (`null`), the
destination square `Move.To()` and the occupancy bitboards
`Board.White.All` / `Board.Black.All`, and the static evaluator
`eval.Evaluate`. -/
structure Game where
  Board : Type
  Move : Type
  beqBoard : DecidableEq Board
  beqMove : DecidableEq Move
  null : Move
  apply : Board → Move → Board
  legalMoves : Board → List Move
  evaluate : Board → Int
  moveStr : Move → String
  toSq : Move → Nat
  whiteAll : Board → Nat
  blackAll : Board → Nat

instance gameBoardDEq (g : Game) : DecidableEq g.Board := g.beqBoard

instance gameMoveDEq (g : Game) : DecidableEq g.Move := g.beqMove

/-- The mutable context of one search invocation: the shared
transposition table (a functional map keyed by position), the shared
stop flag, the pending halt signal (`haltAt = some t` means the timer
sends on the halt channel at node-count instant `t`), and the global
node counter. -/
structure SState (g : Game) where
  tt : g.Board → Option (Entry g.Move)
  stop : Bool
  haltAt : Option Nat
  nodeCount : Nat

/-- `nodeCount++` (search.go lines 161, 230). -/
def bumpNode (g : Game) (st : SState g) : SState g :=
  { st with nodeCount := st.nodeCount + 1 }

/-- Whether the non-blocking `select` on the halt channel receives:
the pending one-shot signal has a delivery timestamp that has been
reached. -/
def haltReady (g : Game) (st : SState g) : Bool :=
  match st.haltAt with
  | some t => decide (t ≤ st.nodeCount)
  | none => false

/-- `transtable.Put(b, move, eval, depth, ntype)`: overwrite the entry
for position `b`. -/
def putTT (g : Game) (st : SState g) (b : g.Board) (m : g.Move)
    (score depth : Int) (nt : NodeType) : SState g :=
  { st with tt := fun b2 => if b2 = b then some ⟨m, score, depth, nt⟩ else st.tt b2 }

/-! ### Quiescence search (search.go lines 229-275) -/

/-- `isCapture` (search.go lines 272-275): the destination square of the
move is occupied by either side. -/
def isCapture (g : Game) (m : g.Move) (b : g.Board) : Bool :=
  let toBitboard : Nat := 1 <<< g.toSq m
  (toBitboard &&& g.whiteAll b != 0) || (toBitboard &&& g.blackAll b != 0)

/-- Stand-pat computation of `quiesce` (search.go lines 234-241): reuse a
cached Exact score, otherwise evaluate statically and cache the result as
an Exact depth-0 entry with the zero move. -/
def standPatCalc (g : Game) (b : g.Board) (st : SState g) : Int × SState g :=
  match st.tt b with
  | some e =>
      if e.ntype = NodeType.Exact then (e.eval, st)
      else (g.evaluate b, putTT g st b g.null (g.evaluate b) 0 NodeType.Exact)
  | none => (g.evaluate b, putTT g st b g.null (g.evaluate b) 0 NodeType.Exact)

/-- The capture loop of `quiesce` (search.go lines 255-268), parametrised
by the recursive call `f` (which `quiesce` instantiates at `depth - 1`).
Non-captures are skipped; a fail-high returns `beta` at once. -/
def qLoopF (g : Game) (f : g.Board → Int → Int → SState g → Int × SState g) :
    List g.Move → g.Board → Int → Int → SState g → Int × SState g
  | [], _, alpha, _, st => (alpha, st)
  | move :: rest, b, alpha, beta, st =>
      if isCapture g move b then
        let r := f (g.apply b move) (neg16 beta) (neg16 alpha) st
        let score := neg16 r.1
        if score ≥ beta then (beta, r.2)
        else qLoopF g f rest b (if score > alpha then score else alpha) beta r.2
      else qLoopF g f rest b alpha beta st

/-- `quiesce` (search.go lines 229-270). -/
def quiesce (g : Game) (b : g.Board) (alpha beta : Int) (depth : Int)
    (st : SState g) : Int × SState g :=
  let st1 := bumpNode g st
  if st1.stop then (alpha, st1)
  else
    let sp := standPatCalc g b st1
    if hcut : depth < -QuiesceCutoffDepth then (sp.1, sp.2)
    else if sp.1 ≥ beta then (beta, sp.2)
    else
      let alpha1 := if alpha < sp.1 then sp.1 else alpha
      let moves := g.legalMoves b
      if moves.isEmpty then (negInf, sp.2)
      else qLoopF g (fun b2 a2 β2 s => quiesce g b2 a2 β2 (depth - 1) s) moves b alpha1 beta sp.2
termination_by (depth + QuiesceCutoffDepth + 1).toNat
decreasing_by
  simp only [QuiesceCutoffDepth] at hcut ⊢
  omega

/-! ### Alpha-beta search (search.go lines 159-227) -/

/-- Outcome of the transposition-table consultation at the top of `ab`:
either an immediate return of the stored score and move, or continuation
with a (possibly tightened) alpha-beta window. -/
inductive ProbeOut (M : Type) where
  | ret (score : Int) (move : M)
  | go (alpha beta : Int)

/-- The cache consultation of `ab` (search.go lines 172-184): with a
stored depth at least the requested depth, an Exact entry returns at
once; a LowerBound entry raises alpha to the stored score; an UpperBound
entry lowers beta to the stored score; if the adjusted window is empty,
the stored score and move are returned. -/
def probeCache (g : Game) (entry : Option (Entry g.Move)) (depthI alpha beta : Int) :
    ProbeOut g.Move :=
  match entry with
  | some e =>
      if e.depth ≥ depthI then
        if e.ntype = NodeType.Exact then ProbeOut.ret e.eval e.move
        else
          let aAdj := if e.ntype = NodeType.LowerBound then max alpha e.eval else alpha
          let bAdj := if e.ntype = NodeType.LowerBound then beta else min beta e.eval
          if aAdj ≥ bAdj then ProbeOut.ret e.eval e.move
          else ProbeOut.go aAdj bAdj
      else ProbeOut.go alpha beta
  | none => ProbeOut.go alpha beta

/-- The node-type classification after the move loop (search.go lines
217-224), against the `alpha0` captured at line 190 and the `beta` in
effect after the cache consultation. -/
def classifyNode (alpha0 beta bestVal : Int) : NodeType :=
  if bestVal ≤ alpha0 then NodeType.UpperBound
  else if bestVal ≥ beta then NodeType.LowerBound
  else NodeType.Exact

/-- The prologue of `ab` (search.go lines 161-184): bump the node
counter, poll the halt channel (receiving sets the stop flag and returns
`alpha` with the zero move), return early if the stop flag is already
set, then consult the cache; `cont` is the rest of the function, applied
to the possibly tightened window. -/
def abShell (g : Game) (b : g.Board) (alpha beta depthI : Int) (st : SState g)
    (cont : Int → Int → SState g → Int × g.Move × SState g) : Int × g.Move × SState g :=
  let st1 := bumpNode g st
  if haltReady g st1 then (alpha, g.null, { st1 with haltAt := none, stop := true })
  else if st1.stop then (alpha, g.null, st1)
  else
    match probeCache g (st1.tt b) depthI alpha beta with
    | ProbeOut.ret v m => (v, m, st1)
    | ProbeOut.go aAdj bAdj => cont aAdj bAdj st1

/-- The move loop of `ab` (search.go lines 197-211), parametrised by the
recursive call `f` (which `ab` instantiates at `depth - 1`): apply each
move, recurse with the negated window, negate the returned score, track
the best score and move, raise alpha, and break on `alpha ≥ beta`.
Returns `(bestVal, bestMove, alpha, state)`. -/
def abLoopF (g : Game) (f : g.Board → Int → Int → SState g → Int × g.Move × SState g) :
    List g.Move → g.Board → Int → Int → Int → g.Move → SState g →
      Int × g.Move × Int × SState g
  | [], _, alpha, _, bestVal, bestMove, st => (bestVal, bestMove, alpha, st)
  | move :: rest, b, alpha, beta, bestVal, bestMove, st =>
      let r := f (g.apply b move) (neg16 beta) (neg16 alpha) st
      let score := neg16 r.1
      let bestVal2 := if score > bestVal then score else bestVal
      let bestMove2 := if score > bestVal then move else bestMove
      let alpha2 := max alpha score
      if alpha2 ≥ beta then (bestVal2, bestMove2, alpha2, r.2.2)
      else abLoopF g f rest b alpha2 beta bestVal2 bestMove2 r.2.2

/-- The non-leaf tail of `ab` (search.go lines 190-226): capture
`alpha0`, generate the legal moves, default the best move to the first
generated move, run the move loop, and on a clean (non-stopped) exit
classify the result and write it to the cache; `d + 1` is the depth of
the node. -/
def abDeep (g : Game) (f : g.Board → Int → Int → SState g → Int × g.Move × SState g)
    (d : Nat) (b : g.Board) (alpha beta : Int) (st : SState g) : Int × g.Move × SState g :=
  let alpha0 := alpha
  let moves := g.legalMoves b
  let bm0 := moves.headD g.null
  let r := abLoopF g f moves b alpha beta negInf bm0 st
  if r.2.2.2.stop then (r.1, r.2.1, r.2.2.2)
  else
    (r.1, r.2.1,
      putTT g r.2.2.2 b r.2.1 r.1 ((d + 1 : Nat) : Int) (classifyNode alpha0 beta r.1))

mutual

/-- `ab` (search.go lines 160-227): the alpha-beta search.  The halt
channel, stop flag, node counter and transposition table live in the
state; the returned triple is `(score, move, state)`. -/
def ab (g : Game) (depth : Nat) (b : g.Board) (alpha beta : Int) (st : SState g) :
    Int × g.Move × SState g :=
  abShell g b alpha beta (depth : Int) st (fun a2 b2 st1 => abCont g depth b a2 b2 st1)
termination_by (depth, 1)

/-- The continuation of `ab` after the cache consultation: at depth 0
delegate to `quiesce` with the zero move (search.go lines 185-188),
otherwise run the move loop and epilogue at depth `d + 1`
(search.go lines 190-226). -/
def abCont (g : Game) (depth : Nat) (b : g.Board) (alpha beta : Int) (st1 : SState g) :
    Int × g.Move × SState g :=
  match depth with
  | 0 =>
      let q := quiesce g b alpha beta 0 st1
      (q.1, g.null, q.2)
  | d + 1 => abDeep g (fun b2 a2 β2 s => ab g d b2 a2 β2 s) d b alpha beta st1
termination_by (depth, 0)

end

/-! ### Principal-variation reconstruction (search.go lines 21-52) -/

/-- The loop of `lookupPv` (search.go lines 26-50), with the loop
counter `for i := depth; i >= 0; i--` modelled by the number `n` of
remaining iterations.  A miss or a stored depth of zero ends the line;
a stored move whose notation matches a currently legal move is applied
and appended; a zero stored move with an extremal score is a mate and
ends the line; any other stored move is stale and ends the line (with a
printed diagnostic in the source). -/
def lookupPvLoop (g : Game) (tt : g.Board → Option (Entry g.Move)) :
    Nat → g.Board → String → String
  | 0, _, pv => pv
  | n + 1, b, pv =>
      match tt b with
      | none => pv
      | some e =>
          if e.depth = 0 then pv
          else if (g.legalMoves b).any (fun mv => g.moveStr mv == g.moveStr e.move) then
            lookupPvLoop g tt n (g.apply b e.move) (pv ++ " " ++ g.moveStr e.move)
          else if e.move = g.null ∧ (e.eval ≤ negInf ∨ e.eval ≥ posInf) then pv
          else pv

/-- `lookupPv` (search.go lines 23-52): start from the notation of the
start move, apply the start move without any legality check, and extend
the line from the transposition table.  The table is passed explicitly;
the source reads the global `transtable`. -/
def lookupPv (g : Game) (tt : g.Board → Option (Entry g.Move)) (b : g.Board)
    (startmove : g.Move) (depth : Int) : String :=
  lookupPvLoop g tt (depth + 1).toNat (g.apply b startmove) (g.moveStr startmove)

/-- Ghost projection of `lookupPvLoop`: the list of table moves the loop
applies, in order.  `pvLoop_eq_append` ties it to the string the source
builds. -/
def lookupPvMoves (g : Game) (tt : g.Board → Option (Entry g.Move)) :
    Nat → g.Board → List g.Move
  | 0, _ => []
  | n + 1, b =>
      match tt b with
      | none => []
      | some e =>
          if e.depth = 0 then []
          else if (g.legalMoves b).any (fun mv => g.moveStr mv == g.moveStr e.move) then
            e.move :: lookupPvMoves g tt n (g.apply b e.move)
          else []

/-- Rendering of a move list as the tail of a PV string: one leading
space before each move notation. -/
def pvTail (g : Game) : List g.Move → String
  | [] => ""
  | m :: ms => " " ++ g.moveStr m ++ pvTail g ms

/-- A move list is sequentially legal from a board when each move is
among the legal moves of the position it is applied to. -/
def SeqLegal (g : Game) : g.Board → List g.Move → Prop
  | _, [] => True
  | b, m :: ms => m ∈ g.legalMoves b ∧ SeqLegal g (g.apply b m) ms

/-! ### Time management (search.go lines 69-75) -/

/-- `CalculateAllowedTime` (search.go lines 69-75).  The estimated
half-moves remaining, `EstimateHalfmovesLeft(b)`, is computed by the
source in float32 arithmetic; it enters the model as the integer
parameter `est`.  Go integer division truncates toward zero, which is
`Int.tdiv`.  The increments `ourinc` and `oppinc` are accepted and
ignored, as in the source. -/
def CalculateAllowedTime (est ourtime opptime ourinc oppinc : Int) : Int :=
  let result := Int.tdiv ourtime est
  if ourtime < 0 ∨ result < 0 then 100 else result

/-! ### Concrete instances used by witnesses and counterexamples -/

/-- A tiny concrete game: positions are naturals, moves are their
notation strings, every move advances the position by one, position `0`
has the single legal move `a`, every other position has the single
legal move `z`, the evaluator is constantly `0`, and the occupancy
bitboards are empty (no captures). -/
abbrev GA : Game :=
  { Board := Nat
    Move := String
    beqBoard := inferInstance
    beqMove := inferInstance
    null := ""
    apply := fun b _ => b + 1
    legalMoves := fun b => if b = 0 then ["a"] else ["z"]
    evaluate := fun _ => 0
    moveStr := fun m => m
    toSq := fun _ => 0
    whiteAll := fun _ => 0
    blackAll := fun _ => 0 }

/-- State for the C1 counterexample: the table holds a LowerBound entry
of score 50 at depth 5 for the root position `0`. -/
def stA : SState GA :=
  { tt := fun b => if b = 0 then some ⟨"", 50, 5, NodeType.LowerBound⟩ else none
    stop := false
    haltAt := none
    nodeCount := 0 }

/-- State for the C3 witness: empty table, halt signal delivered at node
count 2 (so the root passes the poll and the first child receives it). -/
def stB : SState GA :=
  { tt := fun _ => none
    stop := false
    haltAt := some 2
    nodeCount := 0 }

/-- State for the C2 witness: the table holds an Exact entry of score 7
at depth 3 for the root position `0`. -/
def stE : SState GA :=
  { tt := fun b => if b = 0 then some ⟨"a", 7, 3, NodeType.Exact⟩ else none
    stop := false
    haltAt := none
    nodeCount := 0 }

/-- A concrete game with no legal moves anywhere, for the C5 witness. -/
abbrev GQ : Game :=
  { Board := Nat
    Move := String
    beqBoard := inferInstance
    beqMove := inferInstance
    null := ""
    apply := fun b _ => b + 1
    legalMoves := fun _ => []
    evaluate := fun _ => 0
    moveStr := fun m => m
    toSq := fun _ => 0
    whiteAll := fun _ => 0
    blackAll := fun _ => 0 }

/-- Empty-table state for the C5 witness. -/
def stQ : SState GQ :=
  { tt := fun _ => none
    stop := false
    haltAt := none
    nodeCount := 0 }

/-- A concrete game for the PV witnesses: position `1` has the single
legal move `x`, all other positions have none. -/
abbrev GD : Game :=
  { Board := Nat
    Move := String
    beqBoard := inferInstance
    beqMove := inferInstance
    null := ""
    apply := fun b _ => b + 1
    legalMoves := fun b => if b = 1 then ["x"] else []
    evaluate := fun _ => 0
    moveStr := fun m => m
    toSq := fun _ => 0
    whiteAll := fun _ => 0
    blackAll := fun _ => 0 }

/-- Table for the PV witnesses: position `1` stores the legal move `x`
at depth 3; everything else misses. -/
def ttD : GD.Board → Option (Entry GD.Move) :=
  fun b => if b = 1 then some ⟨"x", 0, 3, NodeType.Exact⟩ else none

/-! ## Theorems -/

/-- C4, as stated: both sentinels at least 2 units inside int16 range.
This fails: `posInf = maxInt16 - 1` is only 1 unit below the maximum. -/
theorem sentinel_two_units_cex : ¬ (negInf ≥ minInt16 + 2 ∧ posInf ≤ maxInt16 - 2) := by
  decide

/-- C4, amended: `negInf` is exactly 2 units above the int16 minimum and
`posInf` exactly 1 unit below the int16 maximum, which still makes the
negation of either sentinel and a +1 increase of either magnitude stay
inside int16 range. -/
theorem sentinel_bounds_amended :
    negInf = minInt16 + 2 ∧ posInf = maxInt16 - 1 ∧
    minInt16 ≤ -negInf ∧ -negInf ≤ maxInt16 ∧
    minInt16 ≤ -posInf ∧ -posInf ≤ maxInt16 ∧
    minInt16 ≤ negInf - 1 ∧ posInf + 1 ≤ maxInt16 := by
  decide

/-- C5: in `quiesce`, with the stop flag unset, the ply cutoff not
exceeded, a stand-pat score below beta, and no legal moves at all, the
returned score is `negInf`. -/
theorem quiesce_no_moves_negInf (g : Game) (b : g.Board) (alpha beta depth : Int)
    (st : SState g)
    (hstop : st.stop = false)
    (hcut : ¬ depth < -QuiesceCutoffDepth)
    (hmoves : g.legalMoves b = [])
    (hsp : (standPatCalc g b (bumpNode g st)).1 < beta) :
    (quiesce g b alpha beta depth st).1 = negInf := by
  rw [quiesce]
  have hstop1 : (bumpNode g st).stop = false := hstop
  rw [if_neg (by simp [hstop1]), dif_neg hcut, if_neg (not_le.mpr hsp),
    if_pos (by simp [hmoves])]

/-- Witness for C5 at a concrete game and state. -/
theorem quiesce_no_moves_negInf_witness :
    (quiesce GQ 0 (-3) 10 0 stQ).1 = negInf :=
  quiesce_no_moves_negInf GQ 0 (-3) 10 0 stQ rfl (by decide) rfl (by decide)

/-- C8: `CalculateAllowedTime` returns the clock time divided
(truncating) by the estimated half-moves remaining, except that a
negative clock or a negative quotient yields the fixed fallback 100. -/
theorem calculateAllowedTime_spec (est ourtime opptime ourinc oppinc : Int) :
    (ourtime < 0 ∨ Int.tdiv ourtime est < 0 →
      CalculateAllowedTime est ourtime opptime ourinc oppinc = 100) ∧
    (0 ≤ ourtime → 0 ≤ Int.tdiv ourtime est →
      CalculateAllowedTime est ourtime opptime ourinc oppinc = Int.tdiv ourtime est) := by
  unfold CalculateAllowedTime
  constructor
  · intro h
    simp only [if_pos h]
  · intro h1 h2
    rw [if_neg]
    push_neg
    exact ⟨h1, h2⟩

/-- Witness for C8 at concrete inputs, exercising both the quotient
branch and the fallback branch. -/
theorem calculateAllowedTime_spec_witness :
    CalculateAllowedTime 10 1000 7 3 4 = Int.tdiv 1000 10 ∧
    CalculateAllowedTime 10 (-5) 7 3 4 = 100 :=
  ⟨(calculateAllowedTime_spec 10 1000 7 3 4).2 (by decide) (by decide),
   (calculateAllowedTime_spec 10 (-5) 7 3 4).1 (Or.inl (by decide))⟩

/-- C9: the result of `CalculateAllowedTime` does not depend on the two
increment arguments. -/
theorem calculateAllowedTime_ignores_increments
    (est ourtime opptime ourinc1 oppinc1 ourinc2 oppinc2 : Int) :
    CalculateAllowedTime est ourtime opptime ourinc1 oppinc1 =
      CalculateAllowedTime est ourtime opptime ourinc2 oppinc2 := rfl

/-- The string built by the PV loop is the incoming prefix followed by
the rendering of the list of table moves the loop applies. -/
theorem pvLoop_eq_append (g : Game) (tt : g.Board → Option (Entry g.Move)) (n : Nat) :
    ∀ (b : g.Board) (pv : String),
      lookupPvLoop g tt n b pv = pv ++ pvTail g (lookupPvMoves g tt n b) := by
  induction n with
  | zero =>
      intro b pv
      simp [lookupPvLoop, lookupPvMoves, pvTail, String.append_empty]
  | succ n ih =>
      intro b pv
      rw [lookupPvLoop, lookupPvMoves]
      cases h : tt b with
      | none => simp [pvTail, String.append_empty]
      | some e =>
          by_cases hd : e.depth = 0
          · simp [hd, pvTail, String.append_empty]
          · by_cases ha :
              ((g.legalMoves b).any (fun mv => g.moveStr mv == g.moveStr e.move)) = true
            · simp only [if_neg hd, if_pos ha, pvTail]
              rw [ih]
              simp [pvTail, String.append_assoc]
            · simp only [if_neg hd, if_neg ha, pvTail]
              simp [ite_self, pvTail, String.append_empty]

/-- When the move notation is injective, the table moves applied by the
PV loop are sequentially legal from the starting board. -/
theorem pvMoves_seqLegal (g : Game) (tt : g.Board → Option (Entry g.Move))
    (hinj : Function.Injective g.moveStr) (n : Nat) :
    ∀ b : g.Board, SeqLegal g b (lookupPvMoves g tt n b) := by
  induction n with
  | zero =>
      intro b
      simp [lookupPvMoves, SeqLegal]
  | succ n ih =>
      intro b
      rw [lookupPvMoves]
      cases h : tt b with
      | none => simp [SeqLegal]
      | some e =>
          by_cases hd : e.depth = 0
          · simp [hd, SeqLegal]
          · by_cases ha :
              ((g.legalMoves b).any (fun mv => g.moveStr mv == g.moveStr e.move)) = true
            · simp only [if_neg hd, if_pos ha, SeqLegal]
              refine ⟨?_, ih (g.apply b e.move)⟩
              rcases List.any_eq_true.mp ha with ⟨mv, hmem, heq⟩
              have : g.moveStr mv = g.moveStr e.move := by
                exact of_decide_eq_true heq
              have : mv = e.move := hinj this
              rwa [this] at hmem
            · simp only [if_neg hd, if_neg ha]
              simp [ite_self, SeqLegal]

/-- C6: the line returned by `lookupPv` is the start move notation
followed by the applied table moves, and — when the move notation is
injective, as it is for the chess move encoding — every table move is
legal at the position it is applied to; an illegal cached move truncates
the line, which is returned as-is. -/
theorem lookupPv_tail_legal (g : Game) (tt : g.Board → Option (Entry g.Move))
    (b : g.Board) (startmove : g.Move) (depth : Int)
    (hinj : Function.Injective g.moveStr) :
    lookupPv g tt b startmove depth =
      g.moveStr startmove ++
        pvTail g (lookupPvMoves g tt (depth + 1).toNat (g.apply b startmove)) ∧
    SeqLegal g (g.apply b startmove)
      (lookupPvMoves g tt (depth + 1).toNat (g.apply b startmove)) :=
  ⟨pvLoop_eq_append g tt (depth + 1).toNat (g.apply b startmove) (g.moveStr startmove),
   pvMoves_seqLegal g tt hinj (depth + 1).toNat (g.apply b startmove)⟩

/-- Witness for C6 at a concrete game, table, and start move. -/
theorem lookupPv_tail_legal_witness :
    lookupPv GD ttD 0 ("s") 2 =
      GD.moveStr ("s") ++
        pvTail GD (lookupPvMoves GD ttD ((2 : Int) + 1).toNat (GD.apply 0 ("s"))) ∧
    SeqLegal GD (GD.apply 0 ("s"))
      (lookupPvMoves GD ttD ((2 : Int) + 1).toNat (GD.apply 0 ("s"))) :=
  lookupPv_tail_legal GD ttD 0 ("s") 2 (fun _ _ h => h)

/-- C10: the string returned by `lookupPv` always extends the start move
notation — no legality check is made on the start move, as the statement
holds for every board, move, and table — and therefore the line is
nonempty whenever the start move notation is. -/
theorem lookupPv_starts_with_startmove (g : Game) (tt : g.Board → Option (Entry g.Move))
    (b : g.Board) (startmove : g.Move) (depth : Int) :
    (∃ t, lookupPv g tt b startmove depth = g.moveStr startmove ++ t) ∧
    (g.moveStr startmove ≠ "" → lookupPv g tt b startmove depth ≠ "") := by
  constructor
  · exact ⟨_, pvLoop_eq_append g tt (depth + 1).toNat (g.apply b startmove)
      (g.moveStr startmove)⟩
  · intro hne hempty0
    have hempty : lookupPvLoop g tt (depth + 1).toNat (g.apply b startmove)
        (g.moveStr startmove) = "" := hempty0
    rw [pvLoop_eq_append g tt (depth + 1).toNat (g.apply b startmove)
      (g.moveStr startmove)] at hempty
    have hlen := congrArg String.length hempty
    rw [String.length_append] at hlen
    have hz : (g.moveStr startmove).length = 0 := by
      simpa using Nat.eq_zero_of_add_eq_zero_right (by simpa using hlen)
    apply hne
    cases hs : g.moveStr startmove with
    | mk data =>
        rw [hs] at hz
        cases data with
        | nil => rfl
        | cons a l => simp [String.length] at hz

/-- Witness for C10: with an empty table the line is exactly the start
move notation, which is nonempty. -/
theorem lookupPv_starts_with_startmove_witness :
    GD.moveStr ("s") ≠ "" ∧ lookupPv GD (fun _ => none) 0 ("s") 0 ≠ "" :=
  ⟨by decide,
   (lookupPv_starts_with_startmove GD (fun _ => none) 0 ("s") 0).2 (by decide)⟩

/-- Unfolding of `ab` when the halt signal is not pending and the stop
flag is clear: the result is dispatched on the cache probe. -/
theorem ab_probe_step (g : Game) (depth : Nat) (b : g.Board) (alpha beta : Int)
    (st : SState g)
    (hhalt : haltReady g (bumpNode g st) = false) (hstop : st.stop = false) :
    ab g depth b alpha beta st =
      match probeCache g (st.tt b) (depth : Int) alpha beta with
      | ProbeOut.ret v m => (v, m, bumpNode g st)
      | ProbeOut.go aAdj bAdj => abCont g depth b aAdj bAdj (bumpNode g st) := by
  have hb1 : (bumpNode g st).stop = st.stop := rfl
  have hb2 : (bumpNode g st).tt = st.tt := rfl
  rw [ab]
  simp only [abShell, hhalt, hb1, hstop, hb2, Bool.false_eq_true, if_false]

/-- C2: on entry with the stop machinery quiet, a cache entry whose
stored depth is at least the requested depth drives `ab` as specified:
Exact returns the stored score and move at once; LowerBound raises alpha
to `max alpha stored` (at least the stored score) before continuing;
UpperBound lowers beta to `min beta stored` (at most the stored score)
before continuing; and when the adjusted window is empty the stored
score and move are returned. -/
theorem ab_cache_probe (g : Game) (depth : Nat) (b : g.Board) (alpha beta : Int)
    (st : SState g) (e : Entry g.Move)
    (hhalt : haltReady g (bumpNode g st) = false) (hstop : st.stop = false)
    (hget : st.tt b = some e) (hdepth : (depth : Int) ≤ e.depth) :
    (e.ntype = NodeType.Exact →
      ab g depth b alpha beta st = (e.eval, e.move, bumpNode g st)) ∧
    (e.ntype = NodeType.LowerBound →
      (max alpha e.eval < beta →
        ab g depth b alpha beta st =
          abCont g depth b (max alpha e.eval) beta (bumpNode g st)) ∧
      (beta ≤ max alpha e.eval →
        ab g depth b alpha beta st = (e.eval, e.move, bumpNode g st))) ∧
    (e.ntype = NodeType.UpperBound →
      (alpha < min beta e.eval →
        ab g depth b alpha beta st =
          abCont g depth b alpha (min beta e.eval) (bumpNode g st)) ∧
      (min beta e.eval ≤ alpha →
        ab g depth b alpha beta st = (e.eval, e.move, bumpNode g st))) := by
  rw [ab_probe_step g depth b alpha beta st hhalt hstop, hget]
  refine ⟨?_, ?_, ?_⟩
  · intro hex
    simp only [probeCache, if_pos hdepth, if_pos hex]
  · intro hlb
    have hnex : ¬ e.ntype = NodeType.Exact := by rw [hlb]; decide
    constructor
    · intro hlt
      simp only [probeCache, if_pos hdepth, if_neg hnex, if_pos hlb,
        if_neg (not_le.mpr hlt)]
    · intro hge
      simp only [probeCache, if_pos hdepth, if_neg hnex, if_pos hlb, if_pos hge]
  · intro hub
    have hnex : ¬ e.ntype = NodeType.Exact := by rw [hub]; decide
    have hnlb : ¬ e.ntype = NodeType.LowerBound := by rw [hub]; decide
    constructor
    · intro hlt
      simp only [probeCache, if_pos hdepth, if_neg hnex, if_neg hnlb,
        if_neg (not_le.mpr hlt)]
    · intro hge
      simp only [probeCache, if_pos hdepth, if_neg hnex, if_neg hnlb, if_pos hge]

/-- C1, amended: when the move loop of `ab` completes with the stop flag
unset, the result is classified against `alpha0`, the alpha in effect
when the loop starts — that is, *after* any cache-driven tightening, not
the alpha at entry — and against the beta in effect after any
cache-driven tightening, and `(bestMove, bestScore, depth, boundType)`
is then written to the cache. -/
theorem ab_writes_tightened_classification (g : Game) (d : Nat) (b : g.Board)
    (alpha beta aAdj bAdj : Int) (st : SState g)
    (hhalt : haltReady g (bumpNode g st) = false) (hstop : st.stop = false)
    (hprobe : probeCache g (st.tt b) ((d + 1 : Nat) : Int) alpha beta =
      ProbeOut.go aAdj bAdj)
    (hloop : (abLoopF g (fun b2 a2 β2 s => ab g d b2 a2 β2 s) (g.legalMoves b) b
        aAdj bAdj negInf ((g.legalMoves b).headD g.null)
        (bumpNode g st)).2.2.2.stop = false) :
    ab g (d + 1) b alpha beta st =
      (let r := abLoopF g (fun b2 a2 β2 s => ab g d b2 a2 β2 s) (g.legalMoves b) b
          aAdj bAdj negInf ((g.legalMoves b).headD g.null) (bumpNode g st)
       (r.1, r.2.1,
         putTT g r.2.2.2 b r.2.1 r.1 ((d + 1 : Nat) : Int)
           (classifyNode aAdj bAdj r.1))) := by
  rw [ab_probe_step g (d + 1) b alpha beta st hhalt hstop, hprobe]
  show abCont g (d + 1) b aAdj bAdj (bumpNode g st) = _
  rw [abCont.eq_def]
  dsimp only
  simp only [abDeep, hloop, Bool.false_eq_true, if_false]

/-- C3: when the stop flag is set by the time the move loop of `ab`
finishes, `ab` returns the loop state unchanged — in particular the
cache exactly as the loop left it, with no write for this node — along
with the current best score and best move. -/
theorem ab_stop_skips_cache_write (g : Game) (d : Nat) (b : g.Board)
    (alpha beta aAdj bAdj : Int) (st : SState g)
    (hhalt : haltReady g (bumpNode g st) = false) (hstop : st.stop = false)
    (hprobe : probeCache g (st.tt b) ((d + 1 : Nat) : Int) alpha beta =
      ProbeOut.go aAdj bAdj)
    (hloop : (abLoopF g (fun b2 a2 β2 s => ab g d b2 a2 β2 s) (g.legalMoves b) b
        aAdj bAdj negInf ((g.legalMoves b).headD g.null)
        (bumpNode g st)).2.2.2.stop = true) :
    ab g (d + 1) b alpha beta st =
      (let r := abLoopF g (fun b2 a2 β2 s => ab g d b2 a2 β2 s) (g.legalMoves b) b
          aAdj bAdj negInf ((g.legalMoves b).headD g.null) (bumpNode g st)
       (r.1, r.2.1, r.2.2.2)) := by
  rw [ab_probe_step g (d + 1) b alpha beta st hhalt hstop, hprobe]
  show abCont g (d + 1) b aAdj bAdj (bumpNode g st) = _
  rw [abCont.eq_def]
  dsimp only
  simp only [abDeep, hloop, if_true]

/-- Counterexample to C1 as stated.  At the concrete position `0` of
`GA` with entry window `(-100, 100)` and depth 1, the cached LowerBound
entry of score 50 tightens alpha to 50 before the loop; the loop
completes with the stop flag unset and `bestScore = 50`.  Classified
against the *entry* `alpha0 = -100` and `beta = 100` the claim demands
Exact (`-100 < 50 < 100`), but the code classifies against the
tightened alpha and writes UpperBound to the cache. -/
theorem ab_entry_alpha_classification_cex :
    (ab GA 1 0 (-100) 100 stA).1 = 50 ∧
    (ab GA 1 0 (-100) 100 stA).2.2.stop = false ∧
    (ab GA 1 0 (-100) 100 stA).2.2.tt 0 =
      some ⟨"a", 50, 1, NodeType.UpperBound⟩ ∧
    classifyNode (-100) 100 50 = NodeType.Exact ∧
    NodeType.UpperBound ≠ NodeType.Exact := by
  refine ⟨?_, ?_, ?_, by decide, by decide⟩ <;>
    simp [ab, abCont, abShell, abDeep, abLoopF, probeCache, classifyNode, putTT,
      bumpNode, haltReady, standPatCalc, quiesce, qLoopF, isCapture, neg16, wrap16,
      negInf, posInf, minInt16, maxInt16, QuiesceCutoffDepth, stA, GA]

/-- Witness for the amended C1 on the concrete run of the
counterexample position. -/
theorem ab_writes_tightened_classification_witness :
    ab GA (0 + 1) 0 (-100) 100 stA =
      (let r := abLoopF GA (fun b2 a2 β2 s => ab GA 0 b2 a2 β2 s) (GA.legalMoves 0) 0
          50 100 negInf ((GA.legalMoves 0).headD GA.null) (bumpNode GA stA)
       (r.1, r.2.1,
         putTT GA r.2.2.2 0 r.2.1 r.1 ((0 + 1 : Nat) : Int)
           (classifyNode 50 100 r.1))) :=
  ab_writes_tightened_classification GA 0 0 (-100) 100 50 100 stA rfl rfl rfl
    (by simp [ab, abCont, abShell, abDeep, abLoopF, probeCache, classifyNode, putTT,
      bumpNode, haltReady, standPatCalc, quiesce, qLoopF, isCapture, neg16, wrap16,
      negInf, posInf, minInt16, maxInt16, QuiesceCutoffDepth, stA, GA])

/-- Witness for C2: the Exact cache hit at the concrete state `stE`
returns the stored score and move at once. -/
theorem ab_cache_probe_witness :
    ab GA 1 0 (-5) 5 stE = (7, ("a" : String), bumpNode GA stE) :=
  (ab_cache_probe GA 1 0 (-5) 5 stE ⟨"a", 7, 3, NodeType.Exact⟩ rfl rfl rfl
    (by decide)).1 rfl

/-- Witness for C3: at the concrete state `stB` the halt signal arrives
inside the first recursive call, the loop ends with the stop flag set,
and `ab` returns the loop result with no cache write. -/
theorem ab_stop_skips_cache_write_witness :
    ab GA (0 + 1) 0 (-100) 100 stB =
      (let r := abLoopF GA (fun b2 a2 β2 s => ab GA 0 b2 a2 β2 s) (GA.legalMoves 0) 0
          (-100) 100 negInf ((GA.legalMoves 0).headD GA.null) (bumpNode GA stB)
       (r.1, r.2.1, r.2.2.2)) :=
  ab_stop_skips_cache_write GA 0 0 (-100) 100 (-100) 100 stB rfl rfl rfl
    (by simp [ab, abCont, abShell, abDeep, abLoopF, probeCache, classifyNode, putTT,
      bumpNode, haltReady, standPatCalc, quiesce, qLoopF, isCapture, neg16, wrap16,
      negInf, posInf, minInt16, maxInt16, QuiesceCutoffDepth, stB, GA])

end Dragontooth
